import Mathlib

/-!
Verification of the note-sequencing and audio-synthesis core of the
speech-to-music-note frontend (`src/frontend/src/App.jsx`), shallowly
embedded in Lean 4.

Frequencies and times are modelled as exact rationals (`ℚ`); the octave
is an integer (`ℤ`).  Stateful React code is modelled by explicit state
passing, and the asynchronous playback loop by the trace of scheduled
events it produces.
-/

namespace SpeechToMusicNote

/-! ## Frequency table and pitch resolver (App.jsx lines 10–31) -/

/-- `NOTE_FREQUENCIES`: base frequencies for middle octave (4),
exactly the twelve entries of the JS object literal. -/
def NOTE_FREQUENCIES : List (String × ℚ) :=
  [("C", 26163/100), ("C#", 27718/100), ("D", 29366/100), ("D#", 31113/100),
   ("E", 32963/100), ("F", 34923/100), ("F#", 36999/100), ("G", 392),
   ("G#", 4153/10), ("A", 440), ("A#", 46616/100), ("B", 49388/100)]

/-- `getFrequencyWithOctave(note, octave)`:
looks up `note` in `NOTE_FREQUENCIES`; if the lookup fails
(`if (!baseFreq) return 440`) it returns `440` at once, otherwise it returns
`baseFreq * Math.pow(2, octave - 4)`.  No entry of the table is zero, so JS
falsiness of `baseFreq` coincides with the lookup returning nothing. -/
def getFrequencyWithOctave (note : String) (octave : ℤ) : ℚ :=
  match NOTE_FREQUENCIES.lookup note with
  | none => 440
  | some baseFreq => baseFreq * (2 : ℚ) ^ (octave - 4)

end SpeechToMusicNote

namespace SpeechToMusicNote

/-- **C1.**  For each of the 12 recognized pitch classes `P` and every integer
octave `O`, `frequency(P, O) = frequency(P, 4) * 2^(O - 4)`, and for fixed `P`
the frequency doubles from one octave to the next:
`frequency(P, O+1) = 2 * frequency(P, O)`, for all integers `O` with no
clamping or bounds check. -/
theorem frequency_octave_scaling (note : String) (octave : ℤ)
    (h : (NOTE_FREQUENCIES.lookup note).isSome) :
    getFrequencyWithOctave note octave
        = getFrequencyWithOctave note 4 * (2 : ℚ) ^ (octave - 4)
    ∧ getFrequencyWithOctave note (octave + 1)
        = 2 * getFrequencyWithOctave note octave := by
  obtain ⟨f, hf⟩ := Option.isSome_iff_exists.mp h
  have hg : ∀ o : ℤ, getFrequencyWithOctave note o = f * (2 : ℚ) ^ (o - 4) := by
    intro o
    unfold getFrequencyWithOctave
    rw [hf]
  simp only [hg]
  constructor
  · have h4 : ((4 : ℤ) - 4) = 0 := by norm_num
    rw [h4, zpow_zero, mul_one]
  · have h1 : octave + 1 - 4 = (octave - 4) + 1 := by ring
    rw [h1, zpow_add_one₀ (by norm_num : (2 : ℚ) ≠ 0)]
    ring

/-- Witness for C1 at the recognized pitch class `"A"` and octave `5`. -/
theorem frequency_octave_scaling_witness :
    (NOTE_FREQUENCIES.lookup "A").isSome
    ∧ (getFrequencyWithOctave "A" 5
          = getFrequencyWithOctave "A" 4 * (2 : ℚ) ^ ((5 : ℤ) - 4)
       ∧ getFrequencyWithOctave "A" (5 + 1)
          = 2 * getFrequencyWithOctave "A" 5) :=
  ⟨by decide, frequency_octave_scaling "A" 5 (by decide)⟩

/-- **C5.**  At the reference octave 4 each of the 12 pitch classes resolves to
its documented table value; in particular `frequency("A", 4) = 440` and
`frequency("C", 4) = 261.63`. -/
theorem frequency_at_reference_octave :
    getFrequencyWithOctave "C" 4 = 26163/100
    ∧ getFrequencyWithOctave "C#" 4 = 27718/100
    ∧ getFrequencyWithOctave "D" 4 = 29366/100
    ∧ getFrequencyWithOctave "D#" 4 = 31113/100
    ∧ getFrequencyWithOctave "E" 4 = 32963/100
    ∧ getFrequencyWithOctave "F" 4 = 34923/100
    ∧ getFrequencyWithOctave "F#" 4 = 36999/100
    ∧ getFrequencyWithOctave "G" 4 = 392
    ∧ getFrequencyWithOctave "G#" 4 = 4153/10
    ∧ getFrequencyWithOctave "A" 4 = 440
    ∧ getFrequencyWithOctave "A#" 4 = 46616/100
    ∧ getFrequencyWithOctave "B" 4 = 49388/100 := by
  refine ⟨?_, ?_, ?_, ?_, ?_, ?_, ?_, ?_, ?_, ?_, ?_, ?_⟩ <;>
    · show _ * (2 : ℚ) ^ ((4 : ℤ) - 4) = _
      norm_num

/-- **C4 counterexample.**  The claim asserts the octave rule is applied to the
440 Hz fallback, i.e. `frequency("H", 5) = 440 * 2^(5-4) = 880`; the code
returns `440` for the unrecognized name `"H"` at octave 5. -/
theorem fallback_not_octave_scaled :
    getFrequencyWithOctave "H" 5 = 440
    ∧ getFrequencyWithOctave "H" 5 ≠ 440 * (2 : ℚ) ^ ((5 : ℤ) - 4) := by
  constructor
  · rfl
  · have h : getFrequencyWithOctave "H" 5 = 440 := rfl
    rw [h]
    norm_num

/-- **C4 (amended).**  For every pitch-class name not among the 12 recognized
names and every integer octave `O`, the lookup falls back to the documented
440 Hz reference and the resolver returns it unscaled, so
`frequency(N, O) = 440`; in particular `frequency("H", 4)` returns 440 rather
than failing. -/
theorem frequency_unknown_fallback (note : String) (octave : ℤ)
    (h : NOTE_FREQUENCIES.lookup note = none) :
    getFrequencyWithOctave note octave = 440
    ∧ getFrequencyWithOctave "H" 4 = 440 := by
  constructor
  · unfold getFrequencyWithOctave
    rw [h]
  · rfl

/-- Witness for the amended C4 at the unrecognized name `"H"` and octave 7. -/
theorem frequency_unknown_fallback_witness :
    NOTE_FREQUENCIES.lookup "H" = none
    ∧ (getFrequencyWithOctave "H" 7 = 440
       ∧ getFrequencyWithOctave "H" 4 = 440) :=
  ⟨by decide, frequency_unknown_fallback "H" 7 (by decide)⟩

/-- **C9.**  For every pitch-class name not among the 12 table keys the result
is exactly 440 independent of the octave: the scaling factor `2^(O-4)` is
applied only to recognized names, never to the fallback. -/
theorem fallback_octave_independent (note : String) (o o' : ℤ)
    (h : NOTE_FREQUENCIES.lookup note = none) :
    getFrequencyWithOctave note o = 440
    ∧ getFrequencyWithOctave note o = getFrequencyWithOctave note o' := by
  unfold getFrequencyWithOctave
  rw [h]
  exact ⟨rfl, rfl⟩

/-- Witness for C9 at the unrecognized name `"X"`, octaves 2 and 9. -/
theorem fallback_octave_independent_witness :
    NOTE_FREQUENCIES.lookup "X" = none
    ∧ (getFrequencyWithOctave "X" 2 = 440
       ∧ getFrequencyWithOctave "X" 2 = getFrequencyWithOctave "X" 9) :=
  ⟨by decide, fallback_octave_independent "X" 2 9 (by decide)⟩

/-! ## Note sequence model and sequencer (App.jsx lines 33–43, 113–117, 152–165)

One element of the `musicalNotes` array: `{note, octave, duration}` with the
duration in seconds.  The sequencer `playAllNotes` is asynchronous; we model
one invocation by the trace of `currentNoteIndex` updates it causes, each
tagged with the (ideal) time in seconds at which it takes effect, measured
from the start of the pass.  Time bookkeeping follows the code: iteration `i`
of the loop starts at the sum of the durations of notes `0..i-1`, because
`await playNote(...)` resolves by `setTimeout(resolve, duration * 1000)`. -/

structure NoteEvent where
  note : String
  octave : ℤ
  duration : ℚ
deriving DecidableEq, Repr

/-- UI playback state touched by the sequencer:
`isPlaying` and `currentNoteIndex` (`-1` is the "none" sentinel). -/
structure PlaybackState where
  isPlaying : Bool
  currentNoteIndex : ℤ
deriving DecidableEq, Repr

/-- The debounce wait of `debouncedSetCurrentNote`: `debounce(..., 50)` ms,
i.e. 1/20 s. -/
def debounceWait : ℚ := 1/20

/-- The calls the loop body of `playAllNotes` makes to
`debouncedSetCurrentNote`, as (call time, argument) pairs: at the start of
iteration `i` (time `t` = sum of the previous durations) it calls with `i`,
and after the loop it calls with `-1`.  `t` and `i` are the accumulators. -/
def callsAux (t : ℚ) (i : ℤ) : List NoteEvent → List (ℚ × ℤ)
  | [] => [(t, -1)]
  | n :: ns => (t, i) :: callsAux (t + n.duration) (i + 1) ns

/-- All `debouncedSetCurrentNote` calls of one playback pass over `notes`,
starting at time 0 and index 0. -/
def debouncedCalls (notes : List NoteEvent) : List (ℚ × ℤ) :=
  callsAux 0 0 notes

/-- Resolution of the `debounce(func, wait)` wrapper over a time-ordered list
of calls: each call schedules `func` for `wait` later and clears any pending
timer, so a call's update fires (at call time + `debounceWait`) exactly when
no further call arrives strictly before its timer expires.  Returns the
(fire time, argument) pairs of the updates that actually reach
`setCurrentNoteIndex`. -/
def debounceFires : List (ℚ × ℤ) → List (ℚ × ℤ)
  | [] => []
  | [c] => [(c.1 + debounceWait, c.2)]
  | c :: c2 :: rest =>
      if c2.1 < c.1 + debounceWait then debounceFires (c2 :: rest)
      else (c.1 + debounceWait, c.2) :: debounceFires (c2 :: rest)

/-- `playAllNotes`: returns the state after the pass has fully settled
together with the trace of `currentNoteIndex` updates.  Guard from the code:
`if (isPlaying || !musicalNotes.length) return`.  Otherwise the pass sets
`isPlaying` to `true`, runs the loop (producing the debounced updates), then
sets `isPlaying` to `false`; `currentNoteIndex` ends at the last fired
update (the final `debouncedSetCurrentNote(-1)`). -/
def playAllNotes (s : PlaybackState) (musicalNotes : List NoteEvent) :
    PlaybackState × List (ℚ × ℤ) :=
  if s.isPlaying || musicalNotes.isEmpty then (s, [])
  else
    let fires := debounceFires (debouncedCalls musicalNotes)
    ({ isPlaying := false,
       currentNoteIndex := ((fires.getLast?).map Prod.snd).getD s.currentNoteIndex },
     fires)

/-- `callsAux` always starts with a call at its start time `t`. -/
theorem callsAux_head (t : ℚ) (i : ℤ) (l : List NoteEvent) :
    ∃ v r, callsAux t i l = (t, v) :: r := by
  cases l with
  | nil => exact ⟨-1, [], rfl⟩
  | cons n ns => exact ⟨i, _, rfl⟩

/-- `callsAux` always ends with the sentinel call `-1`. -/
theorem callsAux_getLast (t : ℚ) (i : ℤ) (l : List NoteEvent) :
    ∃ tl, (callsAux t i l).getLast? = some (tl, -1) := by
  induction l generalizing t i with
  | nil => exact ⟨t, rfl⟩
  | cons n ns ih =>
      obtain ⟨tl, htl⟩ := ih (t + n.duration) (i + 1)
      refine ⟨tl, ?_⟩
      rw [callsAux, List.getLast?_cons, htl]
      simp

/-- When every note lasts at least the debounce wait, no timer is cleared:
every call fires, `debounceWait` after it was made. -/
theorem debounceFires_of_long (t : ℚ) (i : ℤ) (l : List NoteEvent)
    (hd : ∀ n ∈ l, debounceWait ≤ n.duration) :
    debounceFires (callsAux t i l)
      = (callsAux t i l).map (fun c => (c.1 + debounceWait, c.2)) := by
  induction l generalizing t i with
  | nil => rfl
  | cons n ns ih =>
      obtain ⟨v, r, hvr⟩ := callsAux_head (t + n.duration) (i + 1) ns
      have hw : debounceWait ≤ n.duration := hd n (List.mem_cons_self n ns)
      have hnotlt : ¬ (t + n.duration < t + debounceWait) := by
        intro hlt
        exact absurd (lt_of_add_lt_add_left hlt) (not_lt.mpr hw)
      have hrest : ∀ m ∈ ns, debounceWait ≤ m.duration := fun m hm =>
        hd m (List.mem_cons_of_mem n hm)
      calc debounceFires (callsAux t i (n :: ns))
          = debounceFires ((t, i) :: (t + n.duration, v) :: r) := by
            rw [callsAux, hvr]
        _ = (t + debounceWait, i) :: debounceFires ((t + n.duration, v) :: r) := by
            rw [debounceFires]
            simp only [hnotlt, if_false]
        _ = (t + debounceWait, i)
              :: debounceFires (callsAux (t + n.duration) (i + 1) ns) := by
            rw [hvr]
        _ = (t + debounceWait, i)
              :: (callsAux (t + n.duration) (i + 1) ns).map
                   (fun c => (c.1 + debounceWait, c.2)) := by
            rw [ih (t + n.duration) (i + 1) hrest]
        _ = (callsAux t i (n :: ns)).map (fun c => (c.1 + debounceWait, c.2)) := by
            rw [callsAux, List.map_cons]

/-- The arguments of the calls of `callsAux t i l` are `i, i+1, …` down the
list, then the sentinel `-1`. -/
theorem callsAux_map_snd (t : ℚ) (i : ℤ) (l : List NoteEvent) :
    (callsAux t i l).map Prod.snd
      = (List.range l.length).map (fun k : ℕ => i + (k : ℤ)) ++ [-1] := by
  induction l generalizing t i with
  | nil => simp [callsAux]
  | cons n ns ih =>
      rw [callsAux, List.map_cons, ih (t + n.duration) (i + 1)]
      rw [List.length_cons, List.range_succ_eq_map, List.map_cons, List.map_map]
      simp only [List.cons_append]
      congr 2
      · omega
      · apply List.map_congr_left
        intro k _
        simp only [Function.comp_apply]
        push_cast
        ring

/-- Every argument `debouncedSetCurrentNote` is called with during a pass over
`l` (starting at index `i`) is the sentinel `-1` or lies in `[i, i + l.length)`. -/
theorem callsAux_snd_mem (t : ℚ) (i : ℤ) (l : List NoteEvent) :
    ∀ p ∈ callsAux t i l, p.2 = -1 ∨ (i ≤ p.2 ∧ p.2 < i + l.length) := by
  induction l generalizing t i with
  | nil =>
      intro p hp
      rw [callsAux, List.mem_singleton] at hp
      subst hp
      exact Or.inl rfl
  | cons n ns ih =>
      intro p hp
      rw [callsAux, List.mem_cons] at hp
      rcases hp with hp | hp
      · subst hp
        right
        constructor
        · exact le_refl i
        · simp only [List.length_cons]
          push_cast
          omega
      · rcases ih (t + n.duration) (i + 1) p hp with h | ⟨h1, h2⟩
        · exact Or.inl h
        · right
          refine ⟨by omega, ?_⟩
          simp only [List.length_cons] at h2 ⊢
          push_cast at h2 ⊢
          omega

/-- Every fired update's argument was the argument of some call. -/
theorem debounceFires_snd_sub (cs : List (ℚ × ℤ)) :
    ∀ p ∈ debounceFires cs, ∃ q ∈ cs, q.2 = p.2 := by
  induction cs with
  | nil =>
      intro p hp
      rw [debounceFires] at hp
      cases hp
  | cons c rest ih =>
      cases rest with
      | nil =>
          intro p hp
          rw [debounceFires, List.mem_singleton] at hp
          subst hp
          exact ⟨c, List.mem_singleton.mpr rfl, rfl⟩
      | cons c2 r =>
          intro p hp
          rw [debounceFires] at hp
          by_cases hlt : c2.1 < c.1 + debounceWait
          · rw [if_pos hlt] at hp
            obtain ⟨q, hq, hqp⟩ := ih p hp
            exact ⟨q, List.mem_cons_of_mem c hq, hqp⟩
          · rw [if_neg hlt] at hp
            rw [List.mem_cons] at hp
            rcases hp with hp | hp
            · subst hp
              exact ⟨c, List.mem_cons_self c (c2 :: r), rfl⟩
            · obtain ⟨q, hq, hqp⟩ := ih p hp
              exact ⟨q, List.mem_cons_of_mem c hq, hqp⟩

/-- **C2 counterexample.**  The claim quantifies over every non-empty
sequence, but for a single note of 0.01 s the debounced update for index 0 is
cancelled by the final `debouncedSetCurrentNote(-1)` (made 0.01 s later,
inside the 50 ms window), so `currentIndex` never visits 0: the update trace
is `[-1]`, not `[0, -1]`. -/
theorem playAllNotes_short_note_skips_index :
    (playAllNotes ⟨false, -1⟩ [⟨"C", 4, 1/100⟩]).2.map Prod.snd = [-1]
    ∧ (playAllNotes ⟨false, -1⟩ [⟨"C", 4, 1/100⟩]).2.map Prod.snd ≠ [0, -1] := by
  have h : (playAllNotes ⟨false, -1⟩ [⟨"C", 4, 1/100⟩]).2.map Prod.snd = [-1] := by
    norm_num [playAllNotes, debouncedCalls, callsAux, debounceFires, debounceWait]
  refine ⟨h, ?_⟩
  rw [h]
  decide

/-- **C2 (amended).**  For every non-empty note sequence each of whose
durations is at least the 50 ms debounce wait, when no playback pass is active
`playAllNotes` makes `currentIndex` visit `0, 1, …, n-1` in strictly
increasing order — one note at a time, iteration `i` starting only after the
full durations of notes `0..i-1` have elapsed — and terminates with
`isPlaying = false` and `currentIndex` at the `-1` sentinel. -/
theorem playAllNotes_visits_in_order (s : PlaybackState) (notes : List NoteEvent)
    (hne : notes ≠ []) (hs : s.isPlaying = false)
    (hd : ∀ n ∈ notes, debounceWait ≤ n.duration) :
    (playAllNotes s notes).2.map Prod.snd
        = (List.range notes.length).map (fun k : ℕ => (k : ℤ)) ++ [-1]
    ∧ (playAllNotes s notes).1.isPlaying = false
    ∧ (playAllNotes s notes).1.currentNoteIndex = -1 := by
  have hguard : (s.isPlaying || notes.isEmpty) = false := by
    rw [hs]
    cases notes with
    | nil => exact absurd rfl hne
    | cons n ns => rfl
  have hfires : debounceFires (debouncedCalls notes)
      = (callsAux 0 0 notes).map (fun c => (c.1 + debounceWait, c.2)) :=
    debounceFires_of_long 0 0 notes hd
  have hsnd : Prod.snd ∘ (fun c : ℚ × ℤ => (c.1 + debounceWait, c.2)) = Prod.snd :=
    funext fun c => rfl
  refine ⟨?_, ?_, ?_⟩
  · simp only [playAllNotes, hguard, Bool.false_eq_true, if_false]
    rw [hfires, List.map_map, hsnd, callsAux_map_snd]
    congr 1
    apply List.map_congr_left
    intro k _
    omega
  · simp [playAllNotes, hguard]
  · simp only [playAllNotes, hguard, Bool.false_eq_true, if_false]
    obtain ⟨tl, htl⟩ := callsAux_getLast 0 0 notes
    rw [hfires, List.getLast?_map, htl]
    rfl

/-- Witness for the amended C2 on the spec's end-to-end scenario
`[{C,4,0.5}, {E,4,0.5}, {G,4,0.5}]` from the idle state: the update trace is
`0, 1, 2, -1` and the pass ends not playing at the sentinel. -/
theorem playAllNotes_visits_in_order_witness :
    (playAllNotes ⟨false, -1⟩
        [⟨"C", 4, 1/2⟩, ⟨"E", 4, 1/2⟩, ⟨"G", 4, 1/2⟩]).2.map Prod.snd
      = [0, 1, 2, -1]
    ∧ (playAllNotes ⟨false, -1⟩
        [⟨"C", 4, 1/2⟩, ⟨"E", 4, 1/2⟩, ⟨"G", 4, 1/2⟩]).1.isPlaying = false
    ∧ (playAllNotes ⟨false, -1⟩
        [⟨"C", 4, 1/2⟩, ⟨"E", 4, 1/2⟩, ⟨"G", 4, 1/2⟩]).1.currentNoteIndex = -1 := by
  have h := playAllNotes_visits_in_order ⟨false, -1⟩
    [⟨"C", 4, 1/2⟩, ⟨"E", 4, 1/2⟩, ⟨"G", 4, 1/2⟩] (List.cons_ne_nil _ _) rfl
    (by intro n hn; fin_cases hn <;> norm_num [debounceWait])
  refine ⟨?_, h.2.1, h.2.2⟩
  rw [h.1]
  decide

/-- **C3.**  If a playback pass is active (`isPlaying = true`) any call to
`playAllNotes` is a no-op changing no playback state; and every
`currentIndex` update a pass makes is the `-1` sentinel or a valid index
into the active sequence. -/
theorem playAllNotes_guard_and_bounds (s : PlaybackState) (notes : List NoteEvent) :
    (s.isPlaying = true → playAllNotes s notes = (s, []))
    ∧ ∀ v ∈ (playAllNotes s notes).2.map Prod.snd,
        v = -1 ∨ (0 ≤ v ∧ v < (notes.length : ℤ)) := by
  constructor
  · intro h
    simp [playAllNotes, h]
  · intro v hv
    by_cases hg : (s.isPlaying || notes.isEmpty) = true
    · simp [playAllNotes, hg] at hv
    · simp only [playAllNotes, Bool.not_eq_true] at hg hv
      rw [hg] at hv
      simp only [Bool.false_eq_true, if_false, List.mem_map] at hv
      obtain ⟨p, hp, hpv⟩ := hv
      obtain ⟨q, hq, hqp⟩ := debounceFires_snd_sub (debouncedCalls notes) p hp
      rcases callsAux_snd_mem 0 0 notes q hq with h1 | ⟨h1, h2⟩
      · left
        rw [← hpv, ← hqp, h1]
      · right
        rw [← hpv, ← hqp]
        constructor
        · exact h1
        · rw [zero_add] at h2
          exact h2

/-- Witness for C3: a call while a pass is active (state
`{isPlaying := true, currentNoteIndex := 0}`) leaves the state unchanged and
produces no updates. -/
theorem playAllNotes_guard_and_bounds_witness :
    playAllNotes ⟨true, 0⟩ [⟨"D", 3, 1⟩] = (⟨true, 0⟩, []) :=
  (playAllNotes_guard_and_bounds ⟨true, 0⟩ [⟨"D", 3, 1⟩]).1 rfl

/-- **C7.**  `playAllNotes` on an empty sequence is a no-op returning
immediately: the state (in particular `isPlaying`) is unchanged and no
updates are produced. -/
theorem playAllNotes_empty_noop (s : PlaybackState) :
    playAllNotes s [] = (s, []) := by
  simp [playAllNotes]

/-! ## Tone synthesizer envelope (App.jsx lines 127–150)

`playNote` schedules the gain automation
`setValueAtTime(0, t)`, `linearRampToValueAtTime(0.3, t + 0.05)`,
`linearRampToValueAtTime(0, t + duration)`; times below are relative to the
note start `t`. -/

/-- Attack length of the envelope: the `+ 0.05` in the first ramp. -/
def attackTime : ℚ := 1/20

/-- Peak gain of the envelope: the `0.3` in the first ramp. -/
def peakGain : ℚ := 3/10

/-- The gain breakpoints scheduled by `playNote`, in scheduling order:
value 0 at the start, `peakGain` at `attackTime`, 0 at `duration`. -/
def envBreakpoints (duration : ℚ) : List (ℚ × ℚ) :=
  [(0, 0), (attackTime, peakGain), (duration, 0)]

/-- The amplitude at time `tm` of the piecewise-linear interpolation of the
scheduled breakpoints, valid when they are in increasing time order
(`attackTime < duration`): the attack ramp from `(0, 0)` to
`(attackTime, peakGain)`, then the release ramp down to `(duration, 0)`. -/
def envValue (duration tm : ℚ) : ℚ :=
  if tm ≤ attackTime then (peakGain / attackTime) * tm
  else peakGain * (duration - tm) / (duration - attackTime)

/-- **C6 counterexample.**  The claim quantifies over every
`durationSeconds > 0`, but for a 0.01 s note the scheduled breakpoint times
`0, 0.05, 0.01` are not increasing: the envelope is not an
up-then-down ramp whose final breakpoint is at `durationSeconds` (the
scheduled automation extends to `0.05 > 0.01`). -/
theorem envelope_short_note_unordered :
    (0 : ℚ) < 1/100
    ∧ ¬ List.Chain' (fun p q : ℚ × ℚ => p.1 < q.1) (envBreakpoints (1/100)) := by
  constructor
  · norm_num
  · intro h
    rw [envBreakpoints, List.chain'_cons, List.chain'_cons] at h
    have : attackTime < (1 : ℚ)/100 := h.2.1
    rw [attackTime] at this
    norm_num at this

/-- **C6 (amended).**  For every note with `durationSeconds` greater than the
0.05 s attack time, the scheduled envelope is a continuous piecewise-linear
function of time: the breakpoint times strictly increase, the envelope starts
at amplitude 0, ramps linearly to the peak `0.3` at `attackTime` (the two
pieces agree there, so there is no jump), and ramps linearly back to exactly
0 at `durationSeconds`, the final breakpoint. -/
theorem envelope_piecewise_linear (d : ℚ) (hd : attackTime < d) :
    List.Chain' (fun p q : ℚ × ℚ => p.1 < q.1) (envBreakpoints d)
    ∧ (envBreakpoints d).head? = some (0, 0)
    ∧ (envBreakpoints d).getLast? = some (d, 0)
    ∧ envValue d 0 = 0
    ∧ (peakGain / attackTime) * attackTime = peakGain
    ∧ peakGain * (d - attackTime) / (d - attackTime) = peakGain
    ∧ envValue d d = 0 := by
  have ha : (0 : ℚ) < attackTime := by rw [attackTime]; norm_num
  have hda : d - attackTime ≠ 0 := sub_ne_zero.mpr (ne_of_gt hd)
  refine ⟨?_, rfl, rfl, ?_, ?_, ?_, ?_⟩
  · rw [envBreakpoints, List.chain'_cons, List.chain'_cons]
    exact ⟨ha, hd, List.chain'_singleton _⟩
  · rw [envValue, if_pos (le_of_lt ha), mul_zero]
  · rw [div_mul_eq_mul_div, mul_div_assoc,
      div_self (ne_of_gt ha), mul_one]
  · rw [mul_div_assoc, div_self hda, mul_one]
  · rw [envValue, if_neg (not_le.mpr hd), sub_self, mul_zero, zero_div]

/-- Witness for the amended C6 at a 1 s note. -/
theorem envelope_piecewise_linear_witness :
    List.Chain' (fun p q : ℚ × ℚ => p.1 < q.1) (envBreakpoints 1)
    ∧ (envBreakpoints 1).head? = some (0, 0)
    ∧ (envBreakpoints 1).getLast? = some (1, 0)
    ∧ envValue 1 0 = 0
    ∧ (peakGain / attackTime) * attackTime = peakGain
    ∧ peakGain * (1 - attackTime) / (1 - attackTime) = peakGain
    ∧ envValue 1 1 = 0 :=
  envelope_piecewise_linear 1 (by rw [attackTime]; norm_num)

/-! ## Shared audio context (App.jsx lines 119–125)

`initAudioContext` keeps the context in the ref `audioContextRef` and
constructs `new AudioContext()` only when the ref is still empty.  Contexts
are identified by a creation counter, so a fresh `new AudioContext()` is
modelled by allocating the next identifier. -/

structure AudioState where
  audioContextRef : Option ℕ
  nextContextId : ℕ
deriving DecidableEq, Repr

/-- `initAudioContext`: if `audioContextRef.current` is empty, create a new
context and store it; return the stored context. -/
def initAudioContext (s : AudioState) : AudioState × ℕ :=
  match s.audioContextRef with
  | some ctx => (s, ctx)
  | none =>
      ({ audioContextRef := some s.nextContextId,
         nextContextId := s.nextContextId + 1 }, s.nextContextId)

/-- **C8.**  The shared audio context is lazily created on the first call to
`initAudioContext` and initialization is idempotent: starting from an
uninitialized state the first call creates and stores a context, and every
later call returns that same stored context with the state unchanged — no
new context is ever created once one exists. -/
theorem initAudioContext_idempotent (s : AudioState) :
    (s.audioContextRef = none →
      (initAudioContext s).1.audioContextRef = some s.nextContextId
      ∧ (initAudioContext s).2 = s.nextContextId)
    ∧ initAudioContext (initAudioContext s).1
        = ((initAudioContext s).1, (initAudioContext s).2)
    ∧ (∀ ctx, s.audioContextRef = some ctx → initAudioContext s = (s, ctx)) := by
  refine ⟨?_, ?_, ?_⟩
  · intro h
    rw [initAudioContext, h]
    exact ⟨rfl, rfl⟩
  · cases h : s.audioContextRef <;> simp [initAudioContext, h]
  · intro ctx h
    rw [initAudioContext, h]

/-- Witness for C8 from the uninitialized state: the first call creates
context 0 and the second call returns the same context unchanged. -/
theorem initAudioContext_idempotent_witness :
    (initAudioContext ⟨none, 0⟩).1.audioContextRef = some 0
    ∧ (initAudioContext ⟨none, 0⟩).2 = 0
    ∧ initAudioContext (initAudioContext ⟨none, 0⟩).1
        = ((initAudioContext ⟨none, 0⟩).1, (initAudioContext ⟨none, 0⟩).2) := by
  have h := initAudioContext_idempotent ⟨none, 0⟩
  exact ⟨(h.1 rfl).1, (h.1 rfl).2, h.2.1⟩

/-! ## File upload validation (App.jsx lines 74–107)

`handleFileUpload` reads `event.target.files[0]` (possibly absent) and checks
the file's MIME type against `acceptedFileTypes` and its size against the
10 MB limit before storing it.  The component state it touches is modelled by
`AppState`; a selected file by `UploadFile` (`fileType` stands for the JS
property `type`). -/

/-- The six accepted audio MIME types (`acceptedFileTypes` in App.jsx). -/
def acceptedFileTypes : List String :=
  ["audio/wav", "audio/mp3", "audio/mpeg", "audio/ogg", "audio/webm", "audio/x-m4a"]

structure UploadFile where
  name : String
  fileType : String
  size : ℕ
deriving DecidableEq, Repr

/-- The slice of component state read or written by `handleFileUpload`. -/
structure AppState where
  error : Option String
  message : Option String
  audioBlob : Option UploadFile
  fileName : String
  transcribedText : String
  musicalNotes : List NoteEvent
  currentNoteIndex : ℤ
deriving DecidableEq, Repr

/-- `handleFileUpload`: return unchanged when no file was selected; reject
with an error message on a type or size violation; otherwise store the file
and clear error, message, transcription, notes and current index. -/
def handleFileUpload (s : AppState) (selected : Option UploadFile) : AppState :=
  match selected with
  | none => s
  | some file =>
      if ¬ acceptedFileTypes.contains file.fileType then
        { s with
          error := some "Invalid file type. Please upload an audio file (WAV, MP3, OGG, etc.)" }
      else if file.size > 10 * 1024 * 1024 then
        { s with error := some "File is too large. Maximum size is 10MB." }
      else
        { s with fileName := file.name, audioBlob := some file, error := none,
                 message := none, transcribedText := "", musicalNotes := [],
                 currentNoteIndex := -1 }

/-- **C10.**  `handleFileUpload` accepts a selected file exactly when its MIME
type is one of the six accepted audio types and its size is at most
`10 * 1024 * 1024` bytes; on violation it sets an error message and leaves
`audioBlob`, `fileName` and the note sequence unchanged; on acceptance it
stores the file and clears the error, message, transcription, notes and
current index. -/
theorem handleFileUpload_validates (s : AppState) (file : UploadFile) :
    (¬ acceptedFileTypes.contains file.fileType →
        (handleFileUpload s (some file)).error ≠ none
        ∧ (handleFileUpload s (some file)).audioBlob = s.audioBlob
        ∧ (handleFileUpload s (some file)).fileName = s.fileName
        ∧ (handleFileUpload s (some file)).musicalNotes = s.musicalNotes)
    ∧ (acceptedFileTypes.contains file.fileType →
        file.size > 10 * 1024 * 1024 →
        (handleFileUpload s (some file)).error ≠ none
        ∧ (handleFileUpload s (some file)).audioBlob = s.audioBlob
        ∧ (handleFileUpload s (some file)).fileName = s.fileName
        ∧ (handleFileUpload s (some file)).musicalNotes = s.musicalNotes)
    ∧ (acceptedFileTypes.contains file.fileType →
        file.size ≤ 10 * 1024 * 1024 →
        (handleFileUpload s (some file)).audioBlob = some file
        ∧ (handleFileUpload s (some file)).fileName = file.name
        ∧ (handleFileUpload s (some file)).error = none
        ∧ (handleFileUpload s (some file)).message = none
        ∧ (handleFileUpload s (some file)).transcribedText = ""
        ∧ (handleFileUpload s (some file)).musicalNotes = []
        ∧ (handleFileUpload s (some file)).currentNoteIndex = -1) := by
  refine ⟨?_, ?_, ?_⟩
  · intro h
    simp only [handleFileUpload, if_pos h]
    exact ⟨Option.some_ne_none _, by trivial, by trivial, by trivial⟩
  · intro h hsz
    simp only [handleFileUpload, if_neg (not_not_intro h), if_pos hsz]
    exact ⟨Option.some_ne_none _, by trivial, by trivial, by trivial⟩
  · intro h hsz
    simp only [handleFileUpload, if_neg (not_not_intro h),
      if_neg (not_lt.mpr hsz)]
    exact ⟨by trivial, by trivial, by trivial, by trivial, by trivial,
      by trivial, by trivial⟩

/-- Witness for C10 on a 1 MB WAV file from a state with stale data: the file
is stored and error, message, transcription, notes and index are cleared. -/
theorem handleFileUpload_validates_witness :
    (handleFileUpload
        ⟨some "old error", some "old message", none, "old.wav", "old text",
          [⟨"C", 4, 1⟩], 2⟩
        (some ⟨"tune.wav", "audio/wav", 1048576⟩)).audioBlob
      = some ⟨"tune.wav", "audio/wav", 1048576⟩
    ∧ (handleFileUpload
        ⟨some "old error", some "old message", none, "old.wav", "old text",
          [⟨"C", 4, 1⟩], 2⟩
        (some ⟨"tune.wav", "audio/wav", 1048576⟩)).fileName = "tune.wav"
    ∧ (handleFileUpload
        ⟨some "old error", some "old message", none, "old.wav", "old text",
          [⟨"C", 4, 1⟩], 2⟩
        (some ⟨"tune.wav", "audio/wav", 1048576⟩)).error = none
    ∧ (handleFileUpload
        ⟨some "old error", some "old message", none, "old.wav", "old text",
          [⟨"C", 4, 1⟩], 2⟩
        (some ⟨"tune.wav", "audio/wav", 1048576⟩)).message = none
    ∧ (handleFileUpload
        ⟨some "old error", some "old message", none, "old.wav", "old text",
          [⟨"C", 4, 1⟩], 2⟩
        (some ⟨"tune.wav", "audio/wav", 1048576⟩)).transcribedText = ""
    ∧ (handleFileUpload
        ⟨some "old error", some "old message", none, "old.wav", "old text",
          [⟨"C", 4, 1⟩], 2⟩
        (some ⟨"tune.wav", "audio/wav", 1048576⟩)).musicalNotes = []
    ∧ (handleFileUpload
        ⟨some "old error", some "old message", none, "old.wav", "old text",
          [⟨"C", 4, 1⟩], 2⟩
        (some ⟨"tune.wav", "audio/wav", 1048576⟩)).currentNoteIndex = -1 :=
  (handleFileUpload_validates
      ⟨some "old error", some "old message", none, "old.wav", "old text",
        [⟨"C", 4, 1⟩], 2⟩
      ⟨"tune.wav", "audio/wav", 1048576⟩).2.2 (by decide) (by decide)

end SpeechToMusicNote
